import Mathlib

/-!
Verification development for the LNCA Lightning Hub repository.

Shallow embedding of the parts of the code the specification claims talk
about:

- the Cashu proof ledger (`backend/services/cashu.js`): proofs, balance,
  `splitAmount`, `selectProofs`, `removeProofs`, and the ledger-mutating
  operations `mintTokens`, `meltTokens`, `swapTokens`, `send`, `receive`;
- the macaroon helper (`macaroon.js`): `createMacaroon`,
  `addFirstPartyCaveat`, `verifyMacaroon`;
- the L402 gateway (`l402-gateway.js`): sessions, `validateL402`,
  `recordUsage`, the challenge amount computation and the pricing tiers,
  together with the tier table `server.js` actually wires in;
- the provider router (`ai-providers.js`): the token-count fallback;
- token serialization (`serializeToken` / `deserializeToken`).

Collaborator primitives (Node built-ins and network peers) are modeled
explicitly: HMAC-SHA256 as a free constructor (`Sig.hmac`), SHA-256 of the
preimage as an abstract function, base64 and JSON.parse as abstract
functions constrained only where the code relies on them, and the mint as
the outcome of its HTTP call (`Option` of the returned signatures).
Everything translated from JavaScript numbers uses `Nat`/`Int`/`Rat` with
the JS quirks (undefined, NaN, truthiness) modeled by `Option` and noted
inline.
-/

namespace LNCA

open List

/-! ## Cashu data model (backend/services/cashu.js) -/

/-- An ecash proof as stored in `this.proofs`: amount (a denomination),
keyset id, secret, and unblinded signature `C`. -/
structure Proof where
  amount : Nat
  id : String
  secret : String
  C : String
deriving DecidableEq

/-- Sum of the amounts of a list of proofs. -/
def sumProofs (ps : List Proof) : Nat := (ps.map Proof.amount).sum

/-- The mutable state of `CashuService` that the ledger claims range over:
`this.proofs` and the cached `this.balance`. The balance is an integer
because the source decrements it by `amount` without a lower bound in
`send` and in the success path of `meltTokens`. -/
structure LedgerState where
  proofs : List Proof
  balance : Int
deriving DecidableEq

/-- The ledger invariant from the specification: the cached balance equals
the sum of the amounts of the stored proofs. -/
def LedgerInv (st : LedgerState) : Prop := st.balance = (sumProofs st.proofs : Int)

instance (st : LedgerState) : Decidable (LedgerInv st) := by
  unfold LedgerInv; infer_instance

/-- The sequence of denominations the `splitAmount` outer loop walks
through: the loop starts at `power = 8192` and halves (`Math.floor(power/2)`)
until the power reaches 0, so the powers visited are exactly
`[8192, 4096, ..., 2, 1]`, which is `pows 13`. -/
def pows : Nat → List Nat
  | 0 => [1]
  | k + 1 => 2 ^ (k + 1) :: pows k

/-- Both loops of `CashuService.splitAmount`: for each power in turn, push
`power` while `remaining >= power` — that is `remaining / power` copies —
then continue with `remaining % power` and the next (halved) power; stop as
soon as nothing remains (the `remaining > 0` guard). -/
def splitLoop : List Nat → Nat → List Nat
  | [], _ => []
  | p :: rest, remaining =>
    if remaining = 0 then []
    else List.replicate (remaining / p) p ++ splitLoop rest (remaining % p)

/-- Greedy power-of-two decomposition `CashuService.splitAmount`, starting
from the maximum denomination 8192. -/
def splitAmount (amount : Nat) : List Nat := splitLoop (pows 13) amount

/-- Binary popcount, used to characterize the length of the greedy
decomposition (the number of ones in the binary expansion). -/
def pc (n : Nat) : Nat :=
  if n = 0 then 0 else pc (n / 2) + n % 2
termination_by n
decreasing_by omega

/-- Length of the greedy decomposition of `a`: full 8192-denomination
proofs plus one proof per binary digit of the remainder. -/
def gLen (a : Nat) : Nat := a / 8192 + pc (a % 8192)

/-- Stable descending sort by amount, modeling
`[...this.proofs].sort((a, b) => b.amount - a.amount)` in `selectProofs`.
A JS stable sort under a consistent comparator has a unique result, so any
stable sort is a faithful model; insertion sort is used because it is
structurally recursive. -/
def sortByAmountDesc (ps : List Proof) : List Proof :=
  ps.insertionSort (fun a b => b.amount ≤ a.amount)

/-- The selection loop of `CashuService.selectProofs`: walk the sorted
proofs, and before taking each one stop if the running total already
reached `amount`. Returns the selected proofs and the final total. -/
def selectLoop (amount : Nat) : List Proof → Nat → List Proof × Nat
  | [], total => ([], total)
  | p :: rest, total =>
    if amount ≤ total then ([], total)
    else
      let r := selectLoop amount rest (total + p.amount)
      (p :: r.1, r.2)

/-- Greedy proof selection `CashuService.selectProofs`: sort descending,
accumulate until the total reaches `amount`; `none` models the thrown
`Insufficient balance` error. On success returns the selected proofs and
the change (selected total minus `amount`). -/
def selectProofs (ps : List Proof) (amount : Nat) : Option (List Proof × Nat) :=
  let r := selectLoop amount (sortByAmountDesc ps) 0
  if r.2 < amount then none else some (r.1, r.2 - amount)

/-- Removal of spent proofs, `CashuService.removeProofs`: keep exactly the
stored proofs whose secret does not occur among the proofs to remove. -/
def removeProofs (ps rem : List Proof) : List Proof :=
  ps.filter (fun p => ! rem.any (fun q => q.secret == p.secret))

/-- A blind signature as returned by the mint: amount, keyset id, and the
blinded signature field `C_`. -/
structure BlindSig where
  amount : Nat
  id : String
  C_ : String
deriving DecidableEq

/-- Unblinding, `CashuService.unblindSignatures`: pair each signature the
mint returned with the locally generated secret of the same index. The
secrets come from `crypto.randomBytes`, modeled as an indexed supply. -/
def unblindSignatures (sigs : List BlindSig) (secrets : Nat → String) : List Proof :=
  sigs.enum.map (fun e => ⟨e.2.amount, e.2.id, secrets e.1, e.2.C_⟩)

/-- Mock proofs, `CashuService.createMockProofs`: one proof per
denomination of `splitAmount amount`, with fresh random secrets and mock
signatures. -/
def createMockProofs (amount : Nat) (ksId : String) (secrets cs : Nat → String) : List Proof :=
  (splitAmount amount).enum.map (fun e => ⟨e.2, ksId, secrets e.1, cs e.1⟩)

/-- Minting, `CashuService.mintTokens`. The HTTP call to the mint is
modeled by its outcome: `some sigs` is a 200 response carrying
`signatures`; `none` is any network or HTTP failure, which lands in the
`catch` block and stores mock proofs instead. Note that both paths append
proofs and add `amount` to the balance. -/
def mintTokens (st : LedgerState) (amount : Nat) (mintResp : Option (List BlindSig))
    (ksId : String) (secrets cs : Nat → String) : LedgerState × List Proof :=
  match mintResp with
  | some sigs =>
    let newProofs := unblindSignatures sigs secrets
    ({ proofs := st.proofs ++ newProofs, balance := st.balance + (amount : Int) }, newProofs)
  | none =>
    let newProofs := createMockProofs amount ksId secrets cs
    ({ proofs := st.proofs ++ newProofs, balance := st.balance + (amount : Int) }, newProofs)

/-- Melting, `CashuService.meltTokens`. `mintOk = true` models a 200
response from `POST /v1/melt/bolt11`; on that path the selected proofs are
removed and the balance drops by `amount`. Every failure — including a
thrown `Insufficient balance` from `selectProofs`, since the `try` wraps
the selection — lands in `catch`, which keeps the proofs untouched and
sets `balance = Math.max(0, balance - amount)`. -/
def meltTokens (st : LedgerState) (amount : Nat) (mintOk : Bool) : LedgerState :=
  match selectProofs st.proofs amount with
  | none => { st with balance := max 0 (st.balance - (amount : Int)) }
  | some sel =>
    if mintOk then
      { proofs := removeProofs st.proofs sel.1, balance := st.balance - (amount : Int) }
    else
      { st with balance := max 0 (st.balance - (amount : Int)) }

/-- Swapping, `CashuService.swapTokens`: on mint success remove the input
proofs from storage and append the fresh unblinded ones (the balance is not
touched); on any failure return the inputs unchanged without touching the
ledger. -/
def swapTokens (st : LedgerState) (inputs : List Proof)
    (mintResp : Option (List BlindSig)) (secrets : Nat → String) :
    LedgerState × List Proof :=
  match mintResp with
  | some sigs =>
    let newProofs := unblindSignatures sigs secrets
    ({ proofs := removeProofs st.proofs inputs ++ newProofs, balance := st.balance }, newProofs)
  | none => (st, inputs)

/-- Sending, `CashuService.send`: select proofs for `amount`, remove them
from storage, decrease the balance by `amount`, and hand the selected
proofs out as the token payload. `none` models the propagated
`Insufficient balance` throw (which mutates nothing). -/
def send (st : LedgerState) (amount : Nat) : Option (LedgerState × List Proof) :=
  (selectProofs st.proofs amount).map (fun sel =>
    ({ proofs := removeProofs st.proofs sel.1, balance := st.balance - (amount : Int) }, sel.1))

/-- Receiving, `CashuService.receive`, after deserialization of the token:
reject a token whose `mint` field is present, truthy, and different from
the configured mint URL; swap the incoming proofs; then credit the balance
with the sum of the proofs the swap returned. `tokMint = none` models an
absent (undefined) `mint` field, which skips the check, as does the falsy
empty string. -/
def receive (st : LedgerState) (mintUrl : String) (tokMint : Option String)
    (tokProofs : List Proof) (mintResp : Option (List BlindSig))
    (secrets : Nat → String) : Option LedgerState :=
  let r := swapTokens st tokProofs mintResp secrets
  let credited : LedgerState :=
    { proofs := r.1.proofs, balance := r.1.balance + (sumProofs r.2 : Int) }
  match tokMint with
  | some m => if m = "" ∨ m = mintUrl then some credited else none
  | none => some credited

/-! ## Macaroon engine (macaroon.js)

HMAC-SHA256 comes from the Node `crypto` collaborator, assumed
collision-free per the specification; it is modeled symbolically as the
free constructor `Sig.hmac`, so two HMAC outputs coincide exactly when key
and message coincide. `Sig.key` injects a raw root-key string. -/

/-- Symbolic signature values: a raw key, or `HMAC-SHA256(key, msg)`. -/
inductive Sig where
  | key : String → Sig
  | hmac : Sig → String → Sig
deriving DecidableEq

/-- A macaroon as built by macaroon.js: location, identifier, ordered
caveat strings, and the chained signature. -/
structure Macaroon where
  location : String
  identifier : String
  caveats : List String
  signature : Sig
deriving DecidableEq

/-- Construction, `createMacaroon(location, identifier, rootKey)`:
no caveats, signature `HMAC(rootKey, identifier)`. -/
def createMacaroon (location identifier rootKey : String) : Macaroon :=
  ⟨location, identifier, [], Sig.hmac (Sig.key rootKey) identifier⟩

/-- Caveat attenuation, `addFirstPartyCaveat(macaroon, caveat)`: a new
macaroon whose caveat list is the old list plus `caveat` and whose
signature is `HMAC(oldSignature, caveat)`; the input is spread into a new
object, never mutated. -/
def addFirstPartyCaveat (m : Macaroon) (caveat : String) : Macaroon :=
  { m with caveats := m.caveats ++ [caveat], signature := Sig.hmac m.signature caveat }

/-- Result record of `verifyMacaroon`. -/
structure VerifyResult where
  valid : Bool
  error : Option String
deriving DecidableEq

/-- Key of a caveat string, from `caveat.split(' = ')` destructured into
its first component. -/
def caveatKey (caveat : String) : String := (caveat.splitOn " = ").headD ""

/-- Value of a caveat string: second component of the split, `none` when
the caveat has no separator (JS undefined). -/
def caveatValue (caveat : String) : Option String := (caveat.splitOn " = ")[1]?

/-- Association-list lookup keyed by strings, modeling indexing a plain JS
object or Map (keys are unique in every table the source builds). -/
def alookup {α : Type} : List (String × α) → String → Option α
  | [], _ => none
  | e :: rest, k => if e.1 = k then some e.2 else alookup rest k

/-- Pointwise update of an association list at one key, modeling in-place
mutation of the object stored under that key. -/
def aupdate {α : Type} (l : List (String × α)) (k : String) (f : α → α) : List (String × α) :=
  l.map (fun e => if e.1 = k then (e.1, f e.2) else e)

/-- The caveat loop of `verifyMacaroon`: for each caveat in order, call the
verifier registered for its key (if any) and abort on failure, then extend
the running signature with `HMAC(sig, caveat)`. Returns the final
recomputed signature, or the failing caveat. -/
def verifyCaveats (verifiers : List (String × (Option String → Bool))) :
    List String → Sig → Except String Sig
  | [], sig => .ok sig
  | c :: rest, sig =>
    match alookup verifiers (caveatKey c) with
    | some f =>
      if f (caveatValue c) then verifyCaveats verifiers rest (Sig.hmac sig c)
      else .error ("Caveat failed: " ++ c)
    | none => verifyCaveats verifiers rest (Sig.hmac sig c)

/-- Verification, `verifyMacaroon(macaroon, rootKey, verifiers)`: recompute
the signature chain from `HMAC(rootKey, identifier)` through every caveat,
then compare with the stored signature. -/
def verifyMacaroon (m : Macaroon) (rootKey : String)
    (verifiers : List (String × (Option String → Bool))) : VerifyResult :=
  match verifyCaveats verifiers m.caveats (Sig.hmac (Sig.key rootKey) m.identifier) with
  | .error e => ⟨false, some e⟩
  | .ok sig => if sig = m.signature then ⟨true, none⟩ else ⟨false, some "Signature mismatch"⟩

/-- The signature chain: fold `HMAC` over a caveat list starting from a
given signature. -/
def chainSig (sig : Sig) (caveats : List String) : Sig := caveats.foldl Sig.hmac sig

/-- The root of the chain for a given root key and identifier. -/
def rootSig (rootKey identifier : String) : Sig := Sig.hmac (Sig.key rootKey) identifier

/-- A macaroon built by `createMacaroon` followed by a sequence of
`addFirstPartyCaveat` calls. -/
def buildMacaroon (location identifier rootKey : String) (caveats : List String) : Macaroon :=
  caveats.foldl addFirstPartyCaveat (createMacaroon location identifier rootKey)

/-! ## L402 gateway (l402-gateway.js) -/

/-- A pricing tier. `minPayment` is an `Option` because the tier objects
`server.js` passes to the gateway constructor carry no `minPayment` field
(JS undefined), unlike the gateway defaults. -/
structure PricingTier where
  pricePerToken : ℚ
  minPayment : Option ℤ
  name : String
deriving DecidableEq

/-- An L402 session as stored by `createChallenge` under the payment hash.
`tokensUsed` is `none` until `recordUsage` first assigns it (JS field
initially absent). -/
structure Session where
  provider : String
  maxTokens : Nat
  amountSats : Nat
  macaroon : String
  invoice : String
  preimage : String
  createdAt : Nat
  expiresAt : Nat
  paid : Bool
  used : Bool
  tokensUsed : Option Nat
deriving DecidableEq

/-- The decoded macaroon identifier used by the gateway:
base64 JSON of version, payment hash and timestamp. -/
structure L402Identifier where
  version : Nat
  paymentHash : String
  timestamp : Nat
deriving DecidableEq

/-- The gateway macaroon JSON built by `createL402Macaroon`, as decoded by
`validateL402`: identifier (itself decoded), location, caveat strings and
a hex signature. `validateL402` reads only the identifier. -/
structure L402Macaroon where
  identifier : L402Identifier
  location : String
  caveats : List String
  signature : String
deriving DecidableEq

/-- Outcome of `validateL402`: either an error string, or the session
metadata returned on success (provider, maxTokens, amountPaid,
paymentHash). -/
inductive L402ValidateResult where
  | invalid (error : String)
  | valid (provider : String) (maxTokens : Nat) (amountPaid : Nat) (paymentHash : String)
deriving DecidableEq

/-- Credential validation, `L402Gateway.validateL402`, after the header
split and base64/JSON decoding: look up the session stored under the
payment hash from the macaroon identifier, check expiry, then accept when
the presented preimage equals the stored one or `sha` of it equals the
payment hash; on success mutate the session `paid` flag. `sha` abstracts
`sha256(Buffer.from(preimage, hex))` in hex (a `crypto` collaborator).
Returns the result together with the session store after the call. -/
def validateL402 (sessions : List (String × Session)) (sha : String → String)
    (now : Nat) (mac : L402Macaroon) (preimage : String) :
    L402ValidateResult × List (String × Session) :=
  let ph := mac.identifier.paymentHash
  match alookup sessions ph with
  | none => (.invalid "Session not found", sessions)
  | some s =>
    if s.expiresAt < now then (.invalid "Session expired", sessions)
    else if preimage ≠ s.preimage ∧ sha preimage ≠ ph then
      (.invalid "Invalid preimage", sessions)
    else
      (.valid s.provider s.maxTokens s.amountSats ph,
       aupdate sessions ph (fun t => { t with paid := true }))

/-- Per-provider revenue bucket of `this.revenue.byProvider`. -/
structure ProviderRevenue where
  requests : Nat
  tokens : Nat
  sats : ℚ
deriving DecidableEq

/-- Revenue tracking state of the gateway. -/
structure Revenue where
  total : ℚ
  byProvider : List (String × ProviderRevenue)
deriving DecidableEq

/-- The gateway state touched by `recordUsage`: the pricing tiers, the
session store, and the revenue counters. -/
structure GatewayState where
  pricingTiers : List (String × PricingTier)
  sessions : List (String × Session)
  revenue : Revenue
deriving DecidableEq

/-- Usage recording, `L402Gateway.recordUsage(paymentHash, tokensUsed,
provider)`. A missing session is a silent no-op. Otherwise the session is
mutated first: `used = true` and `tokensUsed` ASSIGNED (not accumulated).
Then the revenue counters are bumped by `sats = tokensUsed * pricePerToken`.
The boolean is `false` when the source would throw a TypeError — unknown
pricing tier, or provider bucket missing from `byProvider` — in which case
the mutations already performed up to the throw are kept, as in JS. -/
def recordUsage (gw : GatewayState) (ph : String) (tokensUsed : Nat)
    (provider : String) : GatewayState × Bool :=
  match alookup gw.sessions ph with
  | none => (gw, true)
  | some _ =>
    let sessions' := aupdate gw.sessions ph
      (fun s => { s with used := true, tokensUsed := some tokensUsed })
    match alookup gw.pricingTiers provider with
    | none => ({ gw with sessions := sessions' }, false)
    | some tier =>
      let sats := (tokensUsed : ℚ) * tier.pricePerToken
      match alookup gw.revenue.byProvider provider with
      | none =>
        ({ gw with
            sessions := sessions',
            revenue := { gw.revenue with total := gw.revenue.total + sats } }, false)
      | some _ =>
        ({ gw with
            sessions := sessions',
            revenue :=
              { total := gw.revenue.total + sats,
                byProvider := aupdate gw.revenue.byProvider provider
                  (fun r => { requests := r.requests + 1, tokens := r.tokens + tokensUsed,
                              sats := r.sats + sats }) } }, true)

/-- Tier resolution in `createChallenge`:
the tier registered for the provider, else the oobabooga tier. -/
def tierFor (tiers : List (String × PricingTier)) (provider : String) : Option PricingTier :=
  match alookup tiers provider with
  | some t => some t
  | none => alookup tiers "oobabooga"

/-- The challenge amount of `createChallenge`:
`Math.max(tier.minPayment, Math.ceil(estimatedTokens * tier.pricePerToken))`.
When the tier carries no `minPayment` (JS undefined), `Math.max` returns
`NaN`, modeled as `none`. -/
def challengeAmountSats (tier : PricingTier) (estimatedTokens : ℚ) : Option ℤ :=
  tier.minPayment.map (fun m => max m ⌈estimatedTokens * tier.pricePerToken⌉)

/-- The estimated token count the middleware feeds into `createChallenge`:
`req.body?.max_tokens || 1000`, so 1000 when the field is absent or falsy
(zero). -/
def middlewareEstimate (maxTokens : Option ℚ) : ℚ :=
  match maxTokens with
  | some v => if v = 0 then 1000 else v
  | none => 1000

/-- The default pricing tiers of the gateway constructor, each with a
`minPayment`. -/
def defaultPricingTiers : List (String × PricingTier) :=
  [("oobabooga", ⟨1, some 10, "Oobabooga (Local)"⟩),
   ("grok", ⟨5, some 50, "Grok (xAI)"⟩),
   ("chatgpt", ⟨3, some 30, "ChatGPT (OpenAI)"⟩),
   ("claude", ⟨4, some 40, "Claude (Anthropic)"⟩)]

/-- The pricing tiers `server.js` actually passes to the gateway
constructor — `minPayment` is absent from every tier. -/
def serverPricingTiers : List (String × PricingTier) :=
  [("oobabooga", ⟨1, none, "Oobabooga (Local)"⟩),
   ("grok", ⟨5, none, "Grok (xAI)"⟩),
   ("chatgpt", ⟨3, none, "ChatGPT (OpenAI)"⟩),
   ("claude", ⟨4, none, "Claude (Anthropic)"⟩)]

/-! ## Provider router token counting (ai-providers.js) -/

/-- The number of UTF-16 code units of a string — what the JS
`String.prototype.length` of `text.length` counts. Characters below
`0x10000` are one unit, the rest are a surrogate pair. -/
def utf16Length (s : String) : Nat :=
  (s.data.map (fun c => if c.toNat < 65536 then 1 else 2)).sum

/-- The number of bytes of the UTF-8 encoding of a string — what the
specification calls `utf8Length`. -/
def utf8Length (s : String) : Nat :=
  (s.data.map (fun c =>
    if c.toNat < 128 then 1
    else if c.toNat < 2048 then 2
    else if c.toNat < 65536 then 3
    else 4)).sum

/-- The token-count fallback `BaseProvider.countTokens` (inherited by all
four providers): `Math.ceil(text.length / 4)`, with `text.length` the JS
string length, i.e. UTF-16 code units. -/
def countTokensBase (text : String) : ℤ := ⌈(utf16Length text : ℚ) / 4⌉

/-- The router fallback `AIProviderRouter.countTokens`: dispatch to the
provider when known, else the same `Math.ceil(text.length / 4)` estimate.
Every registered provider inherits `BaseProvider.countTokens`, so both
branches compute the same function. -/
def routerCountTokens (providers : List String) (provider : String) (text : String) : ℤ :=
  if provider ∈ providers then countTokensBase text
  else ⌈(utf16Length text : ℚ) / 4⌉

/-! ## Token serialization (cashu.js serializeToken / deserializeToken)

JSON.stringify is modeled by a concrete printer over a JSON syntax tree so
the emitted text is bit-exact; Buffer base64 and JSON.parse are Node
collaborators modeled as abstract functions, constrained exactly where the
code relies on them (decode of encode is the identity, parse of the
emitted text returns the emitted tree). -/

/-- JSON values (numbers restricted to naturals — the only numbers the
token envelope contains are proof amounts). -/
inductive Json where
  | str : String → Json
  | num : Nat → Json
  | bool : Bool → Json
  | null : Json
  | arr : List Json → Json
  | obj : List (String × Json) → Json

/-- Hex digit characters, lower case, for JSON control-character escapes. -/
def hexDigitChar (n : Nat) : Char :=
  if n < 10 then Char.ofNat (48 + n) else Char.ofNat (87 + n)

/-- The character escaping of JSON.stringify. -/
def escapeJsonChar (c : Char) : List Char :=
  if c = '"' then ['\\', '"']
  else if c = '\\' then ['\\', '\\']
  else if c.toNat = 8 then ['\\', 'b']
  else if c.toNat = 9 then ['\\', 't']
  else if c.toNat = 10 then ['\\', 'n']
  else if c.toNat = 12 then ['\\', 'f']
  else if c.toNat = 13 then ['\\', 'r']
  else if c.toNat < 32 then
    ['\\', 'u', '0', '0', hexDigitChar (c.toNat / 16), hexDigitChar (c.toNat % 16)]
  else [c]

/-- A JSON string literal: quotes around the escaped characters. -/
def quoteJsonString (s : String) : String :=
  ⟨'"' :: (s.data.map escapeJsonChar).flatten ++ ['"']⟩

mutual

/-- The output of JSON.stringify on a JSON tree (no spacing, insertion
order preserved — the V8 behavior for the objects the source builds). -/
def stringifyJson : Json → String
  | .str s => quoteJsonString s
  | .num n => toString n
  | .bool b => if b then "true" else "false"
  | .null => "null"
  | .arr xs => "[" ++ stringifyArr xs ++ "]"
  | .obj fs => "\x7b" ++ stringifyObj fs ++ "\x7d"

/-- Comma-separated array elements. -/
def stringifyArr : List Json → String
  | [] => ""
  | [x] => stringifyJson x
  | x :: y :: xs => stringifyJson x ++ "," ++ stringifyArr (y :: xs)

/-- Comma-separated `key:value` object fields. -/
def stringifyObj : List (String × Json) → String
  | [] => ""
  | [f] => quoteJsonString f.1 ++ ":" ++ stringifyJson f.2
  | f :: g :: fs => quoteJsonString f.1 ++ ":" ++ stringifyJson f.2 ++ "," ++ stringifyObj (g :: fs)

end

/-- The JSON object for one proof, in the field order the source object
literals use. -/
def proofJson (p : Proof) : Json :=
  .obj [("amount", .num p.amount), ("id", .str p.id),
        ("secret", .str p.secret), ("C", .str p.C)]

/-- The token envelope `serializeToken` builds before encoding. -/
def tokenJson (mintUrl : String) (ps : List Proof) : Json :=
  .obj [("token", .arr [.obj [("mint", .str mintUrl),
                              ("proofs", .arr (ps.map proofJson))]])]

/-- Serialization, `CashuService.serializeToken`: the `cashuA` prefix
followed by base64 of the UTF-8 JSON of the envelope. `b64encode`
abstracts `Buffer.from(s).toString(base64)`. -/
def serializeToken (b64encode : String → String) (mintUrl : String) (ps : List Proof) : String :=
  "cashuA" ++ b64encode (stringifyJson (tokenJson mintUrl ps))

/-- Prefix test over string data, modeling `tokenString.startsWith`. -/
def strStartsWithTok (s p : String) : Bool := s.data.take p.data.length == p.data

/-- Drop of the first `n` characters, modeling `tokenString.slice(n)`. -/
def strDrop (s : String) (n : Nat) : String := ⟨s.data.drop n⟩

/-- Field access `x.k` on a parsed JSON value (undefined on non-objects). -/
def jget : Json → String → Option Json
  | .obj fs, k => alookup fs k
  | _, _ => none

/-- Index access `x[i]` on a parsed JSON value: array element, the single
character of a string, or — the JS property-coercion behavior — the field
named by the decimal index on an object; undefined otherwise. -/
def jindex : Json → Nat → Option Json
  | .arr xs, i => xs[i]?
  | .str s, i => (s.data[i]?).map (fun c => .str ⟨[c]⟩)
  | .obj fs, i => alookup fs (toString i)
  | _, _ => none

/-- JS truthiness of a possibly-undefined parsed JSON value. -/
def jtruthy : Option Json → Bool
  | none => false
  | some .null => false
  | some (.bool b) => b
  | some (.num n) => n != 0
  | some (.str s) => ! s.data.isEmpty
  | some (.arr _) => true
  | some (.obj _) => true

/-- Deserialization, `CashuService.deserializeToken`: reject strings not
prefixed `cashuA`; base64-decode and JSON-parse the rest (`b64decode` and
`jsonParse` abstract the Node collaborators, with a parse failure
propagating as a throw); reject structures whose `token` or `token[0]` is
missing or falsy; and return the `mint` and `proofs` fields of `token[0]`
as parsed (possibly undefined). -/
def deserializeToken (b64decode : String → String) (jsonParse : String → Option Json)
    (tokenString : String) : Except String (Option Json × Option Json) :=
  if ¬ strStartsWithTok tokenString "cashuA" then .error "Invalid token format"
  else
    match jsonParse (b64decode (strDrop tokenString 6)) with
    | none => .error "JSON parse error"
    | some parsed =>
      let tok := jget parsed "token"
      if ¬ (jtruthy tok ∧ jtruthy (tok.bind (fun t => jindex t 0))) then
        .error "Invalid token structure"
      else
        .ok ((tok.bind (fun t => jindex t 0)).bind (fun t => jget t "mint"),
             (tok.bind (fun t => jindex t 0)).bind (fun t => jget t "proofs"))

/-- Decoder for one proof object, used to state that the serialized proof
objects determine the original proofs. -/
def proofOfJson : Json → Option Proof
  | .obj fs =>
    match alookup fs "amount", alookup fs "id", alookup fs "secret", alookup fs "C" with
    | some (.num a), some (.str i), some (.str s), some (.str c) => some ⟨a, i, s, c⟩
    | _, _, _, _ => none
  | _ => none

/-- Decoder for the proofs array. -/
def proofsOfJson : Json → Option (List Proof)
  | .arr xs => xs.mapM proofOfJson
  | _ => none

/-! ## Helper lemmas: association lists -/

theorem alookup_aupdate_self {α : Type} (l : List (String × α)) (k : String) (f : α → α) :
    alookup (aupdate l k f) k = (alookup l k).map f := by
  induction l with
  | nil => rfl
  | cons e rest ih =>
    rcases e with ⟨e1, e2⟩
    by_cases he : e1 = k
    · subst he; simp [aupdate, alookup]
    · simp only [aupdate, List.map_cons, if_neg he, alookup]
      exact ih

theorem alookup_aupdate_ne {α : Type} (l : List (String × α)) (k k2 : String) (f : α → α)
    (h : k2 ≠ k) : alookup (aupdate l k f) k2 = alookup l k2 := by
  induction l with
  | nil => rfl
  | cons e rest ih =>
    rcases e with ⟨e1, e2⟩
    by_cases he : e1 = k
    · subst he
      have hne : e1 ≠ k2 := fun hk => h hk.symm
      simp only [aupdate, List.map_cons, alookup, eq_self_iff_true, if_true]
      rw [if_neg hne, if_neg hne]
      exact ih
    · simp only [aupdate, List.map_cons, if_neg he, alookup]
      by_cases he2 : e1 = k2
      · rw [if_pos he2, if_pos he2]
      · rw [if_neg he2, if_neg he2]
        exact ih

/-! ## Popcount and greedy-length lemmas (for C6) -/

theorem pc_zero : pc 0 = 0 := by simp [pc]

theorem pc_eq (n : Nat) : pc n = pc (n / 2) + n % 2 := by
  by_cases h : n = 0
  · subst h; simp [pc]
  · rw [pc, if_neg h]

theorem pc_one : pc 1 = 1 := by rw [pc_eq]; simp [pc_zero]

theorem pc_pow_add (k : Nat) : ∀ s, s < 2 ^ k → pc (2 ^ k + s) = 1 + pc s := by
  induction k with
  | zero =>
    intro s hs
    interval_cases s
    simp [pc_one, pc_zero]
  | succ k ih =>
    intro s hs
    have h2 : 2 ^ (k + 1) = 2 * 2 ^ k := by ring
    have hdiv : (2 ^ (k + 1) + s) / 2 = 2 ^ k + s / 2 := by omega
    have hmod : (2 ^ (k + 1) + s) % 2 = s % 2 := by omega
    rw [pc_eq, hdiv, hmod, ih (s / 2) (by omega), pc_eq s]
    omega

theorem pc_two_pow (k : Nat) : pc (2 ^ k) = 1 := by
  have h := pc_pow_add k 0 (by positivity)
  simpa [pc_zero] using h

theorem pc_add_le_aux : ∀ n x y : Nat, x + y = n → pc (x + y) ≤ pc x + pc y := by
  intro n
  induction n using Nat.strong_induction_on with
  | _ n ih =>
    intro x y hxy
    by_cases h0 : x + y = 0
    · have hx : x = 0 := by omega
      have hy : y = 0 := by omega
      simp [hx, hy]
    · rw [pc_eq (x + y), pc_eq x, pc_eq y]
      by_cases hpar : x % 2 + y % 2 ≤ 1
      · have hdiv : (x + y) / 2 = x / 2 + y / 2 := by omega
        have hmod : (x + y) % 2 = x % 2 + y % 2 := by omega
        have hrec := ih (x / 2 + y / 2) (by omega) (x / 2) (y / 2) rfl
        rw [hdiv, hmod]
        omega
      · have hx1 : x % 2 = 1 := by omega
        have hy1 : y % 2 = 1 := by omega
        have hdiv : (x + y) / 2 = x / 2 + y / 2 + 1 := by omega
        have hmod : (x + y) % 2 = 0 := by omega
        have h1 := ih (x / 2 + y / 2 + 1) (by omega) (x / 2 + y / 2) 1 rfl
        have h2 := ih (x / 2 + y / 2) (by omega) (x / 2) (y / 2) rfl
        rw [hdiv, hmod]
        have hp1 : pc 1 = 1 := pc_one
        omega

theorem pc_add_le (x y : Nat) : pc (x + y) ≤ pc x + pc y :=
  pc_add_le_aux (x + y) x y rfl

theorem gLen_add_le (a b : Nat) : gLen (a + b) ≤ gLen a + gLen b := by
  unfold gLen
  have hd : (a + b) / 8192 = a / 8192 + b / 8192 +
      if 8192 ≤ a % 8192 + b % 8192 then 1 else 0 := Nat.add_div (by norm_num)
  have hm : (a + b) % 8192 = (a % 8192 + b % 8192) % 8192 := Nat.add_mod a b 8192
  have hsum := pc_add_le (a % 8192) (b % 8192)
  by_cases hc : 8192 ≤ a % 8192 + b % 8192
  · have hlt : a % 8192 + b % 8192 < 2 * 8192 := by omega
    have hmm : (a % 8192 + b % 8192) % 8192 = a % 8192 + b % 8192 - 8192 := by omega
    have h13 : (2 : Nat) ^ 13 = 8192 := by norm_num
    have hp : pc (a % 8192 + b % 8192) = 1 + pc (a % 8192 + b % 8192 - 8192) :=
      calc pc (a % 8192 + b % 8192)
          = pc (2 ^ 13 + (a % 8192 + b % 8192 - 8192)) := congrArg pc (by omega)
        _ = 1 + pc (a % 8192 + b % 8192 - 8192) := pc_pow_add 13 _ (by omega)
    rw [hd, hm, if_pos hc, hmm]
    omega
  · have hmm : (a % 8192 + b % 8192) % 8192 = a % 8192 + b % 8192 :=
      Nat.mod_eq_of_lt (by omega)
    rw [hd, hm, if_neg hc, hmm]
    omega

theorem pows_mem_iff (n : Nat) : ∀ x, x ∈ pows n ↔ ∃ k, k ≤ n ∧ x = 2 ^ k := by
  induction n with
  | zero =>
    intro x
    constructor
    · intro hx; simp [pows] at hx; exact ⟨0, le_refl 0, by simpa using hx⟩
    · rintro ⟨k, hk, rfl⟩
      have : k = 0 := by omega
      simp [pows, this]
  | succ n ih =>
    intro x
    constructor
    · intro hx
      rcases List.mem_cons.mp hx with h | h
      · exact ⟨n + 1, le_refl _, h⟩
      · obtain ⟨k, hk, rfl⟩ := (ih x).mp h
        exact ⟨k, by omega, rfl⟩
    · rintro ⟨k, hk, rfl⟩
      by_cases hkn : k = n + 1
      · subst hkn; exact List.mem_cons_self _ _
      · exact List.mem_cons_of_mem _ ((ih _).mpr ⟨k, by omega, rfl⟩)

theorem gLen_pow (x : Nat) (hx : x ∈ pows 13) : gLen x = 1 := by
  obtain ⟨k, hk, rfl⟩ := (pows_mem_iff 13 x).mp hx
  unfold gLen
  by_cases h13 : k = 13
  · subst h13; norm_num [pc_zero]
  · have hlt : 2 ^ k < 8192 := by
      calc 2 ^ k ≤ 2 ^ 12 := Nat.pow_le_pow_right (by norm_num) (by omega)
        _ < 8192 := by norm_num
    rw [Nat.div_eq_of_lt hlt, Nat.mod_eq_of_lt hlt, pc_two_pow]

theorem gLen_sum_le (l : List Nat) (hl : ∀ x ∈ l, x ∈ pows 13) : gLen l.sum ≤ l.length := by
  induction l with
  | nil => simp [gLen, pc_zero]
  | cons x rest ih =>
    have hx := gLen_pow x (hl x (List.mem_cons_self _ _))
    have hr := ih (fun y hy => hl y (List.mem_cons_of_mem _ hy))
    calc gLen (x :: rest).sum = gLen (x + rest.sum) := by simp
      _ ≤ gLen x + gLen rest.sum := gLen_add_le _ _
      _ ≤ 1 + rest.length := by omega
      _ = (x :: rest).length := by simp [Nat.add_comm]

theorem splitLoop_pows_sum (k : Nat) : ∀ r, (splitLoop (pows k) r).sum = r := by
  induction k with
  | zero =>
    intro r
    by_cases hr : r = 0 <;> simp [pows, splitLoop, hr]
  | succ k ih =>
    intro r
    by_cases hr : r = 0
    · simp [pows, splitLoop, hr]
    · show (splitLoop (2 ^ (k + 1) :: pows k) r).sum = r
      simp only [splitLoop, if_neg hr, List.sum_append, List.sum_replicate, smul_eq_mul, ih]
      rw [Nat.mul_comm]
      exact Nat.div_add_mod r (2 ^ (k + 1))

theorem splitLoop_pows_mem (k : Nat) : ∀ r x, x ∈ splitLoop (pows k) r → x ∈ pows k := by
  induction k with
  | zero =>
    intro r x hx
    by_cases hr : r = 0
    · simp [pows, splitLoop, hr] at hx
    · simp only [pows, splitLoop, if_neg hr, List.mem_append] at hx
      simp only [pows, List.mem_singleton]
      rcases hx with h | h
      · exact List.eq_of_mem_replicate h
      · simp [splitLoop] at h
  | succ k ih =>
    intro r x hx
    by_cases hr : r = 0
    · simp [pows, splitLoop, hr] at hx
    · simp only [pows, splitLoop, if_neg hr, List.mem_append] at hx
      rcases hx with h | h
      · exact List.mem_cons.mpr (Or.inl (List.eq_of_mem_replicate h))
      · exact List.mem_cons.mpr (Or.inr (ih _ x h))

theorem splitLoop_pows_length (k : Nat) : ∀ r, r < 2 ^ (k + 1) →
    (splitLoop (pows k) r).length = pc r := by
  induction k with
  | zero =>
    intro r hr
    have : r < 2 := by simpa using hr
    interval_cases r
    · simp [pows, splitLoop, pc_zero]
    · simp [pows, splitLoop, pc_one]
  | succ k ih =>
    intro r hr
    by_cases hr0 : r = 0
    · simp [pows, splitLoop, hr0, pc_zero]
    · have hmod : r % 2 ^ (k + 1) < 2 ^ (k + 1) := Nat.mod_lt _ (by positivity)
      have hlen := ih (r % 2 ^ (k + 1)) hmod
      simp only [pows, splitLoop, if_neg hr0, List.length_append, List.length_replicate, hlen]
      by_cases hbig : r < 2 ^ (k + 1)
      · rw [Nat.div_eq_of_lt hbig, Nat.mod_eq_of_lt hbig]
        omega
      · have h2 : 2 ^ (k + 1 + 1) = 2 * 2 ^ (k + 1) := by ring
        have hdiv : r / 2 ^ (k + 1) = 1 :=
          Nat.div_eq_of_lt_le (by omega) (by omega)
        have hm : r % 2 ^ (k + 1) = r - 2 ^ (k + 1) := by
          rw [Nat.mod_eq_sub_mod (by omega)]
          exact Nat.mod_eq_of_lt (by omega)
        have hp : pc r = 1 + pc (r - 2 ^ (k + 1)) := by
          have h8 : r = 2 ^ (k + 1) + (r - 2 ^ (k + 1)) := by omega
          conv_lhs => rw [h8]
          exact pc_pow_add (k + 1) _ (by omega)
        rw [hdiv, hm, hp]

theorem splitLoop_cons (p : Nat) (rest : List Nat) (r : Nat) (h : r ≠ 0) :
    splitLoop (p :: rest) r = List.replicate (r / p) p ++ splitLoop rest (r % p) := by
  rw [splitLoop, if_neg h]

theorem splitAmount_length (a : Nat) : (splitAmount a).length = gLen a := by
  by_cases h : a = 0
  · subst h
    have h0 : splitAmount 0 = [] := by
      show splitLoop (2 ^ 13 :: pows 12) 0 = []
      simp [splitLoop]
    simp [h0, gLen, pc_zero]
  · have h13 : (2 : Nat) ^ 13 = 8192 := by norm_num
    have hmod : a % 8192 < 2 ^ (12 + 1) := by rw [show (2:Nat) ^ (12 + 1) = 8192 by norm_num]; omega
    have hlen := splitLoop_pows_length 12 (a % 8192) hmod
    have hp : pows 13 = 2 ^ 13 :: pows 12 := rfl
    show (splitLoop (pows 13) a).length = gLen a
    rw [hp, splitLoop_cons _ _ _ h, List.length_append, List.length_replicate, h13, hlen]
    rfl

/-! ## C6 -/

/-- Claim C6 (confirmed): for every amount, `splitAmount` returns
denominations summing to the amount, each a power of two in `[1, 8192]`
(the table `pows 13`), and the greedy result is a minimal-length
decomposition among all lists of such powers with the same sum. -/
theorem C6_splitAmount_correct (a : Nat) :
    (splitAmount a).sum = a ∧
    (∀ x ∈ splitAmount a, x ∈ pows 13) ∧
    (∀ x, x ∈ pows 13 ↔ ∃ k, k ≤ 13 ∧ x = 2 ^ k) ∧
    (∀ x ∈ splitAmount a, 1 ≤ x ∧ x ≤ 8192) ∧
    (∀ l : List Nat, (∀ x ∈ l, x ∈ pows 13) → l.sum = a →
      (splitAmount a).length ≤ l.length) := by
  refine ⟨splitLoop_pows_sum 13 a, fun x hx => splitLoop_pows_mem 13 a x hx,
    pows_mem_iff 13, ?_, ?_⟩
  · intro x hx
    obtain ⟨k, hk, rfl⟩ := (pows_mem_iff 13 x).mp (splitLoop_pows_mem 13 a x hx)
    constructor
    · exact Nat.one_le_two_pow
    · calc 2 ^ k ≤ 2 ^ 13 := Nat.pow_le_pow_right (by norm_num) hk
        _ = 8192 := by norm_num
  · intro l hl hsum
    rw [splitAmount_length]
    subst hsum
    exact gLen_sum_le l hl

/-- Witness for C6: the decomposition of 100 sums to 100, lists `[64,32,4]`,
and its length is minimal against the power list `[64, 32, 4]`. -/
theorem C6_splitAmount_correct_witness :
    (splitAmount 100).sum = 100 ∧ splitAmount 100 = [64, 32, 4] ∧
    (splitAmount 100).length ≤ ([64, 32, 4] : List Nat).length :=
  ⟨(C6_splitAmount_correct 100).1, by decide,
   (C6_splitAmount_correct 100).2.2.2.2 [64, 32, 4] (by decide) (by decide)⟩

/-! ## Selection and removal lemmas (for C1) -/

theorem sumProofs_cons (p : Proof) (l : List Proof) :
    sumProofs (p :: l) = p.amount + sumProofs l := by simp [sumProofs]

theorem sumProofs_append (l1 l2 : List Proof) :
    sumProofs (l1 ++ l2) = sumProofs l1 + sumProofs l2 := by simp [sumProofs]

theorem sumProofs_unblind (sigs : List BlindSig) (secrets : Nat → String) :
    sumProofs (unblindSignatures sigs secrets) = (sigs.map BlindSig.amount).sum := by
  unfold sumProofs unblindSignatures
  rw [List.map_map]
  have h : (Proof.amount ∘ fun e : Nat × BlindSig =>
      (⟨e.2.amount, e.2.id, secrets e.1, e.2.C_⟩ : Proof)) = BlindSig.amount ∘ Prod.snd := rfl
  rw [h, ← List.map_map, List.enum_map_snd]

theorem sumProofs_createMockProofs (amount : Nat) (ksId : String) (secrets cs : Nat → String) :
    sumProofs (createMockProofs amount ksId secrets cs) = amount := by
  unfold sumProofs createMockProofs
  rw [List.map_map]
  have h : (Proof.amount ∘ fun e : Nat × Nat =>
      (⟨e.2, ksId, secrets e.1, cs e.1⟩ : Proof)) = Prod.snd := rfl
  rw [h, List.enum_map_snd]
  exact splitLoop_pows_sum 13 amount

theorem selectLoop_sublist (amount : Nat) :
    ∀ (l : List Proof) (total : Nat), (selectLoop amount l total).1 <+ l := by
  intro l
  induction l with
  | nil => intro total; simp [selectLoop]
  | cons p rest ih =>
    intro total
    by_cases h : amount ≤ total
    · simp [selectLoop, h]
    · simp only [selectLoop, if_neg h]
      exact (ih (total + p.amount)).cons₂ p

theorem selectLoop_total (amount : Nat) :
    ∀ (l : List Proof) (total : Nat),
      (selectLoop amount l total).2 = total + sumProofs (selectLoop amount l total).1 := by
  intro l
  induction l with
  | nil => intro total; simp [selectLoop, sumProofs]
  | cons p rest ih =>
    intro total
    by_cases h : amount ≤ total
    · simp [selectLoop, h, sumProofs]
    · simp only [selectLoop, if_neg h]
      rw [sumProofs_cons, ih (total + p.amount)]
      omega

theorem selectProofs_spec (ps : List Proof) (amount : Nat) (sel : List Proof) (change : Nat)
    (h : selectProofs ps amount = some (sel, change)) :
    sumProofs sel = amount + change ∧ sel <+~ ps := by
  unfold selectProofs at h
  by_cases hc : (selectLoop amount (sortByAmountDesc ps) 0).2 < amount
  · simp [hc] at h
  · simp only [hc, if_false, if_neg hc, Option.some_inj, Prod.mk.injEq] at h
    obtain ⟨hsel, hch⟩ := h
    have ht := selectLoop_total amount (sortByAmountDesc ps) 0
    have hsub := selectLoop_sublist amount (sortByAmountDesc ps) 0
    rw [hsel] at ht hsub
    constructor
    · omega
    · exact hsub.subperm.trans (List.perm_insertionSort _ ps).subperm

theorem sumProofs_filter_add (ps : List Proof) (f : Proof → Bool) :
    sumProofs (ps.filter f) + sumProofs (ps.filter (fun p => ! f p)) = sumProofs ps := by
  induction ps with
  | nil => rfl
  | cons p rest ih =>
    by_cases h : f p <;> simp [List.filter_cons, h, sumProofs_cons] <;> omega

theorem proof_eq_of_secret (ps : List Proof) (hnd : (ps.map Proof.secret).Nodup)
    {x q : Proof} (hx : x ∈ ps) (hq : q ∈ ps) (hs : q.secret = x.secret) : x = q :=
  (List.inj_on_of_nodup_map hnd hx hq hs.symm)

theorem filter_secrets_perm (ps sel : List Proof) (hnd : (ps.map Proof.secret).Nodup)
    (hsub : sel <+~ ps) :
    ps.filter (fun p => sel.any (fun q => q.secret == p.secret)) ~ sel := by
  have hndps : ps.Nodup := hnd.of_map
  have hndsel : sel.Nodup := by
    obtain ⟨l, hperm, hsubl⟩ := hsub
    exact hperm.nodup (hndps.sublist hsubl)
  have hfnd : (ps.filter (fun p => sel.any (fun q => q.secret == p.secret))).Nodup :=
    hndps.filter _
  rw [List.perm_ext_iff_of_nodup hfnd hndsel]
  intro x
  rw [List.mem_filter]
  constructor
  · rintro ⟨hxps, hany⟩
    rw [List.any_eq_true] at hany
    obtain ⟨q, hqsel, hq⟩ := hany
    rw [beq_iff_eq] at hq
    have hqps : q ∈ ps := hsub.subset hqsel
    have hxq : x = q := proof_eq_of_secret ps hnd hxps hqps hq
    rwa [hxq]
  · intro hxsel
    refine ⟨hsub.subset hxsel, ?_⟩
    rw [List.any_eq_true]
    exact ⟨x, hxsel, by simp⟩

theorem sumProofs_removeProofs (ps sel : List Proof) (hnd : (ps.map Proof.secret).Nodup)
    (hsub : sel <+~ ps) :
    sumProofs ps = sumProofs sel + sumProofs (removeProofs ps sel) := by
  have hpart := sumProofs_filter_add ps (fun p => sel.any (fun q => q.secret == p.secret))
  have hperm := filter_secrets_perm ps sel hnd hsub
  have hsum : sumProofs (ps.filter (fun p => sel.any (fun q => q.secret == p.secret))) =
      sumProofs sel := (hperm.map Proof.amount).sum_eq
  unfold removeProofs
  omega

theorem removeProofs_of_disjoint (ps rem : List Proof)
    (h : ∀ p ∈ ps, ∀ q ∈ rem, q.secret ≠ p.secret) : removeProofs ps rem = ps := by
  unfold removeProofs
  rw [List.filter_eq_self]
  intro p hp
  have hfalse : rem.any (fun q => q.secret == p.secret) = false := by
    rw [List.any_eq_false]
    intro q hq
    have hne := h p hp q hq
    simp [hne]
  show (! rem.any (fun q => q.secret == p.secret)) = true
  rw [hfalse]
  rfl

/-! ## C1 -/

/-- Claim C1 (corrected): the balance invariant survives only some
operations. For a ledger with pairwise-distinct proof secrets satisfying
the invariant: `mintTokens` preserves it (mock path unconditionally, mint
path when the returned signatures sum to `amount`); `swapTokens` preserves
it for inputs drawn from the ledger when the mint returns equal total
value; a successful `receive` of proofs with fresh secrets preserves it;
but `send` and a successful `meltTokens` leave
`balance = sum(proofs) + change`, where `change` is the greedy selection
overshoot, so the invariant is preserved exactly when the selection is
exact (`change = 0`). -/
theorem C1_balance_invariant_amended (st : LedgerState)
    (hnd : (st.proofs.map Proof.secret).Nodup) (hinv : LedgerInv st) (amount : Nat) :
    (∀ ksId secrets cs, LedgerInv (mintTokens st amount none ksId secrets cs).1) ∧
    (∀ sigs secrets ksId cs, (sigs.map BlindSig.amount).sum = amount →
      LedgerInv (mintTokens st amount (some sigs) ksId secrets cs).1) ∧
    (∀ sel change st2 tok, selectProofs st.proofs amount = some (sel, change) →
      send st amount = some (st2, tok) →
      st2.balance = (sumProofs st2.proofs : Int) + change ∧ (LedgerInv st2 ↔ change = 0)) ∧
    (∀ sel change, selectProofs st.proofs amount = some (sel, change) →
      (meltTokens st amount true).balance =
        (sumProofs (meltTokens st amount true).proofs : Int) + change ∧
      (LedgerInv (meltTokens st amount true) ↔ change = 0)) ∧
    (∀ inputs sigs secrets, inputs <+~ st.proofs →
      (sigs.map BlindSig.amount).sum = sumProofs inputs →
      LedgerInv (swapTokens st inputs (some sigs) secrets).1) ∧
    (∀ tokProofs sigs secrets mintUrl st2,
      (∀ p ∈ st.proofs, ∀ q ∈ tokProofs, q.secret ≠ p.secret) →
      receive st mintUrl (some mintUrl) tokProofs (some sigs) secrets = some st2 →
      LedgerInv st2) := by
  unfold LedgerInv at hinv
  refine ⟨?_, ?_, ?_, ?_, ?_, ?_⟩
  · intro ksId secrets cs
    show st.balance + (amount : Int) =
      ((sumProofs (st.proofs ++ createMockProofs amount ksId secrets cs) : Nat) : Int)
    rw [sumProofs_append, sumProofs_createMockProofs]
    push_cast
    omega
  · intro sigs secrets ksId cs hsum
    show st.balance + (amount : Int) =
      ((sumProofs (st.proofs ++ unblindSignatures sigs secrets) : Nat) : Int)
    rw [sumProofs_append, sumProofs_unblind, hsum]
    push_cast
    omega
  · intro sel change st2 tok hsel hsend
    have hsend2 : send st amount =
        some (⟨removeProofs st.proofs sel, st.balance - (amount : Int)⟩, sel) := by
      unfold send
      rw [hsel]
      rfl
    rw [hsend2] at hsend
    have heq := Option.some.inj hsend
    rw [Prod.mk.injEq] at heq
    obtain ⟨hst2, -⟩ := heq
    obtain ⟨hselsum, hsub⟩ := selectProofs_spec st.proofs amount sel change hsel
    have hrem := sumProofs_removeProofs st.proofs sel hnd hsub
    subst hst2
    constructor
    · show st.balance - (amount : Int) =
        ((sumProofs (removeProofs st.proofs sel) : Nat) : Int) + (change : Int)
      omega
    · unfold LedgerInv
      show st.balance - (amount : Int) =
          ((sumProofs (removeProofs st.proofs sel) : Nat) : Int) ↔ change = 0
      constructor
      · intro hb
        push_cast at hb
        omega
      · intro hb
        omega
  · intro sel change hsel
    obtain ⟨hselsum, hsub⟩ := selectProofs_spec st.proofs amount sel change hsel
    have hrem := sumProofs_removeProofs st.proofs sel hnd hsub
    have hmelt : meltTokens st amount true =
        ⟨removeProofs st.proofs sel, st.balance - (amount : Int)⟩ := by
      unfold meltTokens
      rw [hsel]
      rfl
    rw [hmelt]
    constructor
    · show st.balance - (amount : Int) =
        ((sumProofs (removeProofs st.proofs sel) : Nat) : Int) + (change : Int)
      omega
    · unfold LedgerInv
      show st.balance - (amount : Int) =
          ((sumProofs (removeProofs st.proofs sel) : Nat) : Int) ↔ change = 0
      constructor
      · intro hb
        push_cast at hb
        omega
      · intro hb
        omega
  · intro inputs sigs secrets hsub hsum
    have hrem := sumProofs_removeProofs st.proofs inputs hnd hsub
    show st.balance =
      ((sumProofs (removeProofs st.proofs inputs ++ unblindSignatures sigs secrets) : Nat) : Int)
    rw [sumProofs_append, sumProofs_unblind, hsum]
    push_cast
    omega
  · intro tokProofs sigs secrets mintUrl st2 hdisj hrec
    have hrec2 : receive st mintUrl (some mintUrl) tokProofs (some sigs) secrets =
        some ⟨removeProofs st.proofs tokProofs ++ unblindSignatures sigs secrets,
          st.balance + (sumProofs (unblindSignatures sigs secrets) : Int)⟩ := by
      unfold receive swapTokens
      dsimp only
      rw [if_pos (Or.inr rfl)]
    rw [hrec2] at hrec
    have heq := Option.some.inj hrec
    subst heq
    unfold LedgerInv
    show st.balance + (sumProofs (unblindSignatures sigs secrets) : Int) =
      ((sumProofs (removeProofs st.proofs tokProofs ++ unblindSignatures sigs secrets) : Nat) : Int)
    rw [removeProofs_of_disjoint st.proofs tokProofs hdisj, sumProofs_append]
    push_cast
    omega

/-- Witness for C1: on the ledger holding proofs of 64, 32 and 4 sats with
balance 100, a melt of 96 (exact selection, change 0) and a mock mint of 5
both preserve the invariant. -/
theorem C1_balance_invariant_amended_witness :
    LedgerInv (meltTokens ⟨[⟨64, "ks", "s64", "C64"⟩, ⟨32, "ks", "s32", "C32"⟩,
      ⟨4, "ks", "s4", "C4"⟩], 100⟩ 96 true) ∧
    LedgerInv (mintTokens ⟨[⟨64, "ks", "s64", "C64"⟩, ⟨32, "ks", "s32", "C32"⟩,
      ⟨4, "ks", "s4", "C4"⟩], 100⟩ 5 none "ks" (fun _ => "n") (fun _ => "c")).1 := by
  have h := C1_balance_invariant_amended
    ⟨[⟨64, "ks", "s64", "C64"⟩, ⟨32, "ks", "s32", "C32"⟩, ⟨4, "ks", "s4", "C4"⟩], 100⟩
    (by decide) (by decide) 96
  have h5 := C1_balance_invariant_amended
    ⟨[⟨64, "ks", "s64", "C64"⟩, ⟨32, "ks", "s32", "C32"⟩, ⟨4, "ks", "s4", "C4"⟩], 100⟩
    (by decide) (by decide) 5
  refine ⟨?_, h5.1 "ks" (fun _ => "n") (fun _ => "c")⟩
  exact (h.2.2.2.1 [⟨64, "ks", "s64", "C64"⟩, ⟨32, "ks", "s32", "C32"⟩] 0 (by decide)).2.mpr rfl

/-- Counterexample for C1: a ledger holding one 64-sat proof with balance
64 satisfies the invariant, but `send 50` removes the whole proof while
decreasing the balance by only 50 — afterwards the balance is 14 and the
stored proofs sum to 0. -/
theorem C1_balance_invariant_counterexample :
    LedgerInv ⟨[⟨64, "ks", "s64", "C64"⟩], 64⟩ ∧
    send ⟨[⟨64, "ks", "s64", "C64"⟩], 64⟩ 50 =
      some (⟨[], 14⟩, [⟨64, "ks", "s64", "C64"⟩]) ∧
    ¬ LedgerInv ⟨[], 14⟩ := by
  refine ⟨by decide, by decide, by decide⟩

/-! ## C2 -/

/-- Claim C2 (corrected): the failure paths are not all-or-nothing. On mint
rejection `swapTokens` alone leaves the ledger unchanged; `mintTokens`
appends mock proofs summing to `amount` and still adds `amount` to the
balance; and `meltTokens` keeps the proofs but clamps the balance down to
`max 0 (balance - amount)` — on any failure whatsoever, proof selection
included. -/
theorem C2_failure_paths (st : LedgerState) (amount : Nat) (inputs : List Proof)
    (ksId : String) (secrets cs : Nat → String) :
    swapTokens st inputs none secrets = (st, inputs) ∧
    mintTokens st amount none ksId secrets cs =
      ({ proofs := st.proofs ++ createMockProofs amount ksId secrets cs,
         balance := st.balance + (amount : Int) }, createMockProofs amount ksId secrets cs) ∧
    sumProofs (createMockProofs amount ksId secrets cs) = amount ∧
    meltTokens st amount false =
      { st with balance := max 0 (st.balance - (amount : Int)) } := by
  refine ⟨rfl, rfl, ?_, ?_⟩
  · unfold sumProofs createMockProofs
    have hmap : ((splitAmount amount).enum.map
        (fun e => (⟨e.2, ksId, secrets e.1, cs e.1⟩ : Proof))).map Proof.amount =
        splitAmount amount := by
      rw [List.map_map]
      have : (Proof.amount ∘ fun e : Nat × Nat => (⟨e.2, ksId, secrets e.1, cs e.1⟩ : Proof)) =
          Prod.snd := rfl
      rw [this, List.enum_map_snd]
    rw [hmap]
    exact splitLoop_pows_sum 13 amount
  · unfold meltTokens
    cases h : selectProofs st.proofs amount with
    | none => rfl
    | some sel => rfl

/-- Counterexample for C2: with a single 64-sat proof and balance 64, a
rejected melt of 50 changes the balance to 14 (proofs intact), and a
rejected mint of 5 appends mock proofs — the ledger does not stay as it
was before the call. -/
theorem C2_failure_paths_counterexample :
    meltTokens ⟨[⟨64, "ks", "s64", "C64"⟩], 64⟩ 50 false ≠ ⟨[⟨64, "ks", "s64", "C64"⟩], 64⟩ ∧
    (mintTokens ⟨[⟨64, "ks", "s64", "C64"⟩], 64⟩ 5 none "ks"
      (fun _ => "n") (fun _ => "c")).1 ≠ ⟨[⟨64, "ks", "s64", "C64"⟩], 64⟩ := by
  constructor <;> decide

/-! ## Macaroon chain lemmas (for C4) -/

theorem chainSig_nil (s : Sig) : chainSig s [] = s := rfl

theorem chainSig_cons (s : Sig) (c : String) (cs : List String) :
    chainSig s (c :: cs) = chainSig (Sig.hmac s c) cs := rfl

theorem chainSig_snoc (s : Sig) (cs : List String) (c : String) :
    chainSig s (cs ++ [c]) = Sig.hmac (chainSig s cs) c := by
  unfold chainSig
  rw [List.foldl_append]
  rfl

theorem chainSig_isHmac (cs : List String) : ∀ (a : Sig) (m : String),
    ∃ x y, chainSig (Sig.hmac a m) cs = Sig.hmac x y := by
  induction cs with
  | nil => intro a m; exact ⟨a, m, rfl⟩
  | cons c rest ih =>
    intro a m
    rw [chainSig_cons]
    exact ih (Sig.hmac a m) c

theorem chainSig_root_inj (rootKey identifier : String) :
    ∀ cs ct : List String,
      chainSig (rootSig rootKey identifier) cs = chainSig (rootSig rootKey identifier) ct →
      cs = ct := by
  intro cs
  induction cs using List.reverseRecOn with
  | nil =>
    intro ct
    induction ct using List.reverseRecOn with
    | nil => intro _; rfl
    | append_singleton ct c _ =>
      intro h
      rw [chainSig_nil, chainSig_snoc] at h
      obtain ⟨x, y, hx⟩ := chainSig_isHmac ct (Sig.key rootKey) identifier
      have hx2 : chainSig (rootSig rootKey identifier) ct = Sig.hmac x y := hx
      rw [hx2] at h
      unfold rootSig at h
      injection h with h1 h2
      exact Sig.noConfusion h1
  | append_singleton cs c ih =>
    intro ct
    induction ct using List.reverseRecOn with
    | nil =>
      intro h
      rw [chainSig_nil, chainSig_snoc] at h
      obtain ⟨x, y, hx⟩ := chainSig_isHmac cs (Sig.key rootKey) identifier
      have hx2 : chainSig (rootSig rootKey identifier) cs = Sig.hmac x y := hx
      rw [hx2] at h
      unfold rootSig at h
      injection h with h1 h2
      exact Sig.noConfusion h1
    | append_singleton ct d _ =>
      intro h
      rw [chainSig_snoc, chainSig_snoc] at h
      injection h with h1 h2
      rw [ih ct h1, h2]

theorem verifyCaveats_empty (cs : List String) : ∀ sig : Sig,
    verifyCaveats [] cs sig = .ok (chainSig sig cs) := by
  induction cs with
  | nil => intro sig; rfl
  | cons c rest ih =>
    intro sig
    show verifyCaveats [] rest (Sig.hmac sig c) = _
    rw [ih (Sig.hmac sig c), chainSig_cons]

theorem buildMacaroon_spec (_location _identifier _rootKey : String) :
    ∀ (cs : List String) (m : Macaroon),
      cs.foldl addFirstPartyCaveat m =
        ⟨m.location, m.identifier, m.caveats ++ cs, chainSig m.signature cs⟩ := by
  intro cs
  induction cs with
  | nil => intro m; simp [chainSig_nil]
  | cons c rest ih =>
    intro m
    rw [List.foldl_cons, ih (addFirstPartyCaveat m c)]
    unfold addFirstPartyCaveat
    simp [chainSig_cons]

theorem buildMacaroon_eq (location identifier rootKey : String) (caveats : List String) :
    buildMacaroon location identifier rootKey caveats =
      ⟨location, identifier, caveats, chainSig (rootSig rootKey identifier) caveats⟩ := by
  unfold buildMacaroon createMacaroon
  rw [buildMacaroon_spec location identifier rootKey caveats]
  rfl

/-! ## C4 -/

/-- Claim C4 (confirmed): a macaroon built by `createMacaroon` and any
sequence of `addFirstPartyCaveat` calls verifies against the root key with
no verifiers; altering the stored signature alone yields a signature
mismatch, and altering the caveat list alone makes verification fail (the
HMAC chain, modeled symbolically as a free algebra, is injective in the
caveats). `verifyMacaroon` accepts exactly when the stored signature is
the recomputed chain, and `addFirstPartyCaveat` returns a fresh macaroon
with the caveat appended and the signature re-keyed — it cannot mutate its
input, which the functional embedding makes structural. -/
theorem C4_macaroon_integrity (location identifier rootKey : String) (caveats : List String) :
    (∀ mac : Macaroon, (verifyMacaroon mac rootKey []).valid = true ↔
      chainSig (rootSig rootKey mac.identifier) mac.caveats = mac.signature) ∧
    verifyMacaroon (buildMacaroon location identifier rootKey caveats) rootKey [] =
      ⟨true, none⟩ ∧
    (∀ sig2, sig2 ≠ (buildMacaroon location identifier rootKey caveats).signature →
      verifyMacaroon { buildMacaroon location identifier rootKey caveats with
        signature := sig2 } rootKey [] = ⟨false, some "Signature mismatch"⟩) ∧
    (∀ caveats2, caveats2 ≠ caveats →
      (verifyMacaroon { buildMacaroon location identifier rootKey caveats with
        caveats := caveats2 } rootKey []).valid = false) ∧
    (∀ (mac : Macaroon) (c : String), addFirstPartyCaveat mac c =
      ⟨mac.location, mac.identifier, mac.caveats ++ [c], Sig.hmac mac.signature c⟩) := by
  have hchar : ∀ mac : Macaroon, (verifyMacaroon mac rootKey []).valid = true ↔
      chainSig (rootSig rootKey mac.identifier) mac.caveats = mac.signature := by
    intro mac
    unfold verifyMacaroon
    rw [verifyCaveats_empty mac.caveats (Sig.hmac (Sig.key rootKey) mac.identifier)]
    show (if chainSig (rootSig rootKey mac.identifier) mac.caveats = mac.signature then
      (⟨true, none⟩ : VerifyResult) else ⟨false, some "Signature mismatch"⟩).valid = true ↔ _
    by_cases h : chainSig (rootSig rootKey mac.identifier) mac.caveats = mac.signature
    · simp [h]
    · simp [h]
  refine ⟨hchar, ?_, ?_, ?_, ?_⟩
  · unfold verifyMacaroon
    rw [buildMacaroon_eq]
    rw [verifyCaveats_empty caveats (Sig.hmac (Sig.key rootKey) identifier)]
    show (if chainSig (rootSig rootKey identifier) caveats =
      chainSig (rootSig rootKey identifier) caveats then (⟨true, none⟩ : VerifyResult)
      else ⟨false, some "Signature mismatch"⟩) = ⟨true, none⟩
    rw [if_pos rfl]
  · intro sig2 hne
    rw [buildMacaroon_eq] at hne ⊢
    unfold verifyMacaroon
    rw [verifyCaveats_empty caveats (Sig.hmac (Sig.key rootKey) identifier)]
    show (if chainSig (rootSig rootKey identifier) caveats = sig2 then
      (⟨true, none⟩ : VerifyResult) else ⟨false, some "Signature mismatch"⟩) = _
    rw [if_neg (fun h => hne h.symm)]
  · intro caveats2 hne
    rw [buildMacaroon_eq]
    unfold verifyMacaroon
    rw [verifyCaveats_empty caveats2 (Sig.hmac (Sig.key rootKey) identifier)]
    show (if chainSig (rootSig rootKey identifier) caveats2 =
      chainSig (rootSig rootKey identifier) caveats then (⟨true, none⟩ : VerifyResult)
      else ⟨false, some "Signature mismatch"⟩).valid = false
    rw [if_neg (fun h => hne (chainSig_root_inj rootKey identifier caveats2 caveats h))]
  · intro mac c
    rfl

/-- Witness for C4: a concrete macaroon over two caveats verifies; forging
the signature or swapping a caveat makes verification fail. -/
theorem C4_macaroon_integrity_witness :
    verifyMacaroon (buildMacaroon "lightning-hub" "ident" "rootkey"
      ["provider = claude", "max_tokens = 500"]) "rootkey" [] = ⟨true, none⟩ ∧
    verifyMacaroon { buildMacaroon "lightning-hub" "ident" "rootkey"
      ["provider = claude", "max_tokens = 500"] with signature := Sig.key "forged" }
      "rootkey" [] = ⟨false, some "Signature mismatch"⟩ ∧
    (verifyMacaroon { buildMacaroon "lightning-hub" "ident" "rootkey"
      ["provider = claude", "max_tokens = 500"] with
        caveats := ["provider = grok", "max_tokens = 500"] } "rootkey" []).valid = false := by
  have h := C4_macaroon_integrity "lightning-hub" "ident" "rootkey"
    ["provider = claude", "max_tokens = 500"]
  exact ⟨h.2.1, h.2.2.1 (Sig.key "forged") (by decide),
    h.2.2.2.1 ["provider = grok", "max_tokens = 500"] (by decide)⟩

/-! ## C3 -/

/-- Claim C3 (confirmed): `validateL402` fails without touching the store
when no session is stored under the payment hash from the macaroon
identifier or when the session is expired (`now` strictly past
`expiresAt`); otherwise it succeeds exactly when the presented preimage
equals the stored one or hashes to the payment hash, in which case it
marks that session (and only that session) `paid = true` and returns the
session provider, maxTokens and amountPaid. -/
theorem C3_validateL402_correct (sessions : List (String × Session)) (sha : String → String)
    (now : Nat) (mac : L402Macaroon) (preimage : String) :
    (alookup sessions mac.identifier.paymentHash = none →
      validateL402 sessions sha now mac preimage = (.invalid "Session not found", sessions)) ∧
    (∀ s, alookup sessions mac.identifier.paymentHash = some s → s.expiresAt < now →
      validateL402 sessions sha now mac preimage = (.invalid "Session expired", sessions)) ∧
    (∀ s, alookup sessions mac.identifier.paymentHash = some s → now ≤ s.expiresAt →
      preimage ≠ s.preimage → sha preimage ≠ mac.identifier.paymentHash →
      validateL402 sessions sha now mac preimage = (.invalid "Invalid preimage", sessions)) ∧
    (∀ s, alookup sessions mac.identifier.paymentHash = some s → now ≤ s.expiresAt →
      (preimage = s.preimage ∨ sha preimage = mac.identifier.paymentHash) →
      validateL402 sessions sha now mac preimage =
        (.valid s.provider s.maxTokens s.amountSats mac.identifier.paymentHash,
          aupdate sessions mac.identifier.paymentHash (fun t => { t with paid := true })) ∧
      alookup (validateL402 sessions sha now mac preimage).2 mac.identifier.paymentHash =
        some { s with paid := true } ∧
      (∀ k, k ≠ mac.identifier.paymentHash →
        alookup (validateL402 sessions sha now mac preimage).2 k = alookup sessions k)) := by
  refine ⟨?_, ?_, ?_, ?_⟩
  · intro h
    unfold validateL402
    dsimp only
    rw [h]
  · intro s hs hexp
    unfold validateL402
    dsimp only
    rw [hs]
    dsimp only
    rw [if_pos hexp]
  · intro s hs hexp hp1 hp2
    unfold validateL402
    dsimp only
    rw [hs]
    dsimp only
    rw [if_neg (by omega : ¬ s.expiresAt < now), if_pos ⟨hp1, hp2⟩]
  · intro s hs hexp hor
    have hval : validateL402 sessions sha now mac preimage =
        (.valid s.provider s.maxTokens s.amountSats mac.identifier.paymentHash,
         aupdate sessions mac.identifier.paymentHash (fun t => { t with paid := true })) := by
      unfold validateL402
      dsimp only
      rw [hs]
      dsimp only
      rw [if_neg (by omega : ¬ s.expiresAt < now),
        if_neg (fun hc => hor.elim (fun h1 => hc.1 h1) (fun h2 => hc.2 h2))]
    refine ⟨hval, ?_, ?_⟩
    · rw [hval]
      show alookup (aupdate sessions mac.identifier.paymentHash
        (fun t => { t with paid := true })) mac.identifier.paymentHash = _
      rw [alookup_aupdate_self, hs]
      rfl
    · intro k hk
      rw [hval]
      show alookup (aupdate sessions mac.identifier.paymentHash
        (fun t => { t with paid := true })) k = alookup sessions k
      exact alookup_aupdate_ne sessions mac.identifier.paymentHash k _ hk

/-- Witness for C3: a concrete unexpired session under payment hash `ph1`
validates with the matching preimage; the session flips to paid. -/
theorem C3_validateL402_correct_witness :
    validateL402
      [("ph1", ⟨"claude", 1000, 40, "mac", "inv", "pre", 0, 10, false, false, none⟩)]
      (fun _ => "HASH") 5 ⟨⟨1, "ph1", 0⟩, "lightning-hub", [], "sig"⟩ "pre" =
      (.valid "claude" 1000 40 "ph1",
       [("ph1", ⟨"claude", 1000, 40, "mac", "inv", "pre", 0, 10, true, false, none⟩)]) := by
  have h := (C3_validateL402_correct
      [("ph1", ⟨"claude", 1000, 40, "mac", "inv", "pre", 0, 10, false, false, none⟩)]
      (fun _ => "HASH") 5 ⟨⟨1, "ph1", 0⟩, "lightning-hub", [], "sig"⟩ "pre").2.2.2
      ⟨"claude", 1000, 40, "mac", "inv", "pre", 0, 10, false, false, none⟩
      (by decide) (by decide) (Or.inl rfl)
  rw [h.1]
  rfl

/-! ## C10 -/

/-- Claim C10 (confirmed): the outcome of `validateL402` — result and
session-store effect alike — depends on the decoded macaroon only through
its identifier. The stored signature is never recomputed or compared, so
two credentials with the same identifier and preimage but different
signatures, caveats or locations are treated identically. -/
theorem C10_validate_ignores_signature (sessions : List (String × Session))
    (sha : String → String) (now : Nat) (m1 m2 : L402Macaroon) (preimage : String)
    (h : m1.identifier = m2.identifier) :
    validateL402 sessions sha now m1 preimage = validateL402 sessions sha now m2 preimage := by
  unfold validateL402
  rw [h]

/-- Witness for C10: two concrete macaroons sharing an identifier but with
different locations, caveats and signatures validate identically. -/
theorem C10_validate_ignores_signature_witness :
    validateL402
      [("ph1", ⟨"claude", 1000, 40, "mac", "inv", "pre", 0, 10, false, false, none⟩)]
      (fun _ => "HASH") 5 ⟨⟨1, "ph1", 0⟩, "lightning-hub", ["provider = claude"], "sigA"⟩
      "pre" =
    validateL402
      [("ph1", ⟨"claude", 1000, 40, "mac", "inv", "pre", 0, 10, false, false, none⟩)]
      (fun _ => "HASH") 5 ⟨⟨1, "ph1", 0⟩, "elsewhere", [], "forged"⟩ "pre" :=
  C10_validate_ignores_signature
    [("ph1", ⟨"claude", 1000, 40, "mac", "inv", "pre", 0, 10, false, false, none⟩)]
    (fun _ => "HASH") 5 _ _ "pre" rfl

/-! ## C5 -/

/-- Claim C5 (code bug): the formula
`amountSats = max(minPayment, ceil(estimatedTokens * pricePerToken))` is
what `createChallenge` computes whenever the tier carries a `minPayment`;
but the tiers `server.js` wires into the gateway omit `minPayment`, so for
a default `POST /v1/chat` challenge (estimate 1000) the computation is
`Math.max(undefined, 1000) = NaN` — modeled as `none` — instead of the
claimed `max(minPayment, 1000)`. Under the gateway constructor defaults
(which do carry `minPayment`) the claimed value 1000 comes out. -/
theorem C5_challenge_amount_server_nan :
    (∀ (m : ℤ) (ppt : ℚ) (nm : String) (est : ℚ),
      challengeAmountSats ⟨ppt, some m, nm⟩ est = some (max m ⌈est * ppt⌉)) ∧
    tierFor serverPricingTiers "oobabooga" = some ⟨1, none, "Oobabooga (Local)"⟩ ∧
    challengeAmountSats ⟨1, none, "Oobabooga (Local)"⟩ (middlewareEstimate none) = none ∧
    tierFor defaultPricingTiers "oobabooga" = some ⟨1, some 10, "Oobabooga (Local)"⟩ ∧
    challengeAmountSats ⟨1, some 10, "Oobabooga (Local)"⟩ (middlewareEstimate none) =
      some 1000 := by
  refine ⟨fun m ppt nm est => rfl, rfl, rfl, rfl, ?_⟩
  show some (max 10 ⌈(1000 : ℚ) * 1⌉) = some 1000
  norm_num

/-! ## recordUsage equation (for C8) -/

theorem recordUsage_eq (gw : GatewayState) (ph : String) (tokensUsed : Nat)
    (provider : String) (s : Session) (tier : PricingTier) (pr : ProviderRevenue)
    (hs : alookup gw.sessions ph = some s)
    (ht : alookup gw.pricingTiers provider = some tier)
    (hb : alookup gw.revenue.byProvider provider = some pr) :
    recordUsage gw ph tokensUsed provider =
      ({ pricingTiers := gw.pricingTiers,
         sessions := aupdate gw.sessions ph
           (fun t => { t with used := true, tokensUsed := some tokensUsed }),
         revenue :=
           { total := gw.revenue.total + (tokensUsed : ℚ) * tier.pricePerToken,
             byProvider := aupdate gw.revenue.byProvider provider
               (fun r => { requests := r.requests + 1, tokens := r.tokens + tokensUsed,
                           sats := r.sats + (tokensUsed : ℚ) * tier.pricePerToken }) } },
       true) := by
  unfold recordUsage
  rw [hs]
  dsimp only
  rw [ht]
  dsimp only
  rw [hb]

/-! ## recordUsage lookup lemmas (for C8) -/

theorem recordUsage_lookups (gw : GatewayState) (ph : String) (tokensUsed : Nat)
    (provider : String) (s : Session) (tier : PricingTier) (pr : ProviderRevenue)
    (hs : alookup gw.sessions ph = some s)
    (ht : alookup gw.pricingTiers provider = some tier)
    (hb : alookup gw.revenue.byProvider provider = some pr) :
    alookup (recordUsage gw ph tokensUsed provider).1.sessions ph =
      some { s with used := true, tokensUsed := some tokensUsed } ∧
    alookup (recordUsage gw ph tokensUsed provider).1.pricingTiers provider = some tier ∧
    alookup (recordUsage gw ph tokensUsed provider).1.revenue.byProvider provider =
      some { requests := pr.requests + 1, tokens := pr.tokens + tokensUsed,
             sats := pr.sats + (tokensUsed : ℚ) * tier.pricePerToken } := by
  have h1 := recordUsage_eq gw ph tokensUsed provider s tier pr hs ht hb
  refine ⟨?_, ?_, ?_⟩
  · rw [h1]
    show alookup (aupdate gw.sessions ph
      (fun t => { t with used := true, tokensUsed := some tokensUsed })) ph = _
    rw [alookup_aupdate_self, hs]
    rfl
  · rw [h1]
    exact ht
  · rw [h1]
    show alookup (aupdate gw.revenue.byProvider provider
      (fun r => { requests := r.requests + 1, tokens := r.tokens + tokensUsed,
                  sats := r.sats + (tokensUsed : ℚ) * tier.pricePerToken })) provider = _
    rw [alookup_aupdate_self, hb]
    rfl

theorem recordUsage_twice_sessions (gw : GatewayState) (ph : String) (tokensUsed : Nat)
    (provider : String) (s : Session) (tier : PricingTier) (pr : ProviderRevenue)
    (hs : alookup gw.sessions ph = some s)
    (ht : alookup gw.pricingTiers provider = some tier)
    (hb : alookup gw.revenue.byProvider provider = some pr) :
    alookup (recordUsage (recordUsage gw ph tokensUsed provider).1 ph tokensUsed
        provider).1.sessions ph =
      some { s with used := true, tokensUsed := some tokensUsed } := by
  obtain ⟨hs1, ht1, hb1⟩ := recordUsage_lookups gw ph tokensUsed provider s tier pr hs ht hb
  obtain ⟨hs2, -, -⟩ := recordUsage_lookups (recordUsage gw ph tokensUsed provider).1 ph
    tokensUsed provider _ _ _ hs1 ht1 hb1
  exact hs2

/-! ## C8 -/

/-- Claim C8 (corrected): `recordUsage` with a stored session and known
tier marks the session used, SETS `tokensUsed` to the passed value
(overwriting — the source assigns, it does not accumulate), and bumps the
global and per-provider revenue by one request, `tokensUsed` tokens and
`tokensUsed * pricePerToken` sats; calling it twice applies the revenue
increments twice while the session `tokensUsed` stays the last value. -/
theorem C8_recordUsage_amended (gw : GatewayState) (ph : String) (tokensUsed : Nat)
    (provider : String) (s : Session) (tier : PricingTier) (pr : ProviderRevenue)
    (hs : alookup gw.sessions ph = some s)
    (ht : alookup gw.pricingTiers provider = some tier)
    (hb : alookup gw.revenue.byProvider provider = some pr) :
    recordUsage gw ph tokensUsed provider =
      ({ pricingTiers := gw.pricingTiers,
         sessions := aupdate gw.sessions ph
           (fun t => { t with used := true, tokensUsed := some tokensUsed }),
         revenue :=
           { total := gw.revenue.total + (tokensUsed : ℚ) * tier.pricePerToken,
             byProvider := aupdate gw.revenue.byProvider provider
               (fun r => { requests := r.requests + 1, tokens := r.tokens + tokensUsed,
                           sats := r.sats + (tokensUsed : ℚ) * tier.pricePerToken }) } },
       true) ∧
    alookup (recordUsage gw ph tokensUsed provider).1.sessions ph =
      some { s with used := true, tokensUsed := some tokensUsed } ∧
    alookup (recordUsage gw ph tokensUsed provider).1.revenue.byProvider provider =
      some { requests := pr.requests + 1, tokens := pr.tokens + tokensUsed,
             sats := pr.sats + (tokensUsed : ℚ) * tier.pricePerToken } ∧
    (recordUsage (recordUsage gw ph tokensUsed provider).1 ph tokensUsed
        provider).1.revenue.total =
      gw.revenue.total + (tokensUsed : ℚ) * tier.pricePerToken +
        (tokensUsed : ℚ) * tier.pricePerToken ∧
    alookup (recordUsage (recordUsage gw ph tokensUsed provider).1 ph tokensUsed
        provider).1.sessions ph =
      some { s with used := true, tokensUsed := some tokensUsed } := by
  have h1 := recordUsage_eq gw ph tokensUsed provider s tier pr hs ht hb
  obtain ⟨hs1, ht1, hb1⟩ := recordUsage_lookups gw ph tokensUsed provider s tier pr hs ht hb
  have h2 := recordUsage_eq (recordUsage gw ph tokensUsed provider).1 ph tokensUsed provider
    { s with used := true, tokensUsed := some tokensUsed } tier
    { requests := pr.requests + 1, tokens := pr.tokens + tokensUsed,
      sats := pr.sats + (tokensUsed : ℚ) * tier.pricePerToken } hs1 ht1 hb1
  refine ⟨h1, hs1, hb1, ?_,
    recordUsage_twice_sessions gw ph tokensUsed provider s tier pr hs ht hb⟩
  rw [h2]
  show (recordUsage gw ph tokensUsed provider).1.revenue.total +
    (tokensUsed : ℚ) * tier.pricePerToken = _
  rw [h1]

/-- Witness for C8: a concrete gateway with one session and the claude
tier; after `recordUsage` the session is marked used with
`tokensUsed = 5`. -/
theorem C8_recordUsage_amended_witness :
    alookup (recordUsage
      ⟨[("claude", ⟨4, some 40, "Claude (Anthropic)"⟩)],
       [("h1", ⟨"claude", 1000, 40, "m", "i", "p", 0, 10, true, false, none⟩)],
       ⟨0, [("claude", ⟨0, 0, 0⟩)]⟩⟩ "h1" 5 "claude").1.sessions "h1" =
      some ⟨"claude", 1000, 40, "m", "i", "p", 0, 10, true, true, some 5⟩ :=
  (C8_recordUsage_amended
    ⟨[("claude", ⟨4, some 40, "Claude (Anthropic)"⟩)],
     [("h1", ⟨"claude", 1000, 40, "m", "i", "p", 0, 10, true, false, none⟩)],
     ⟨0, [("claude", ⟨0, 0, 0⟩)]⟩⟩ "h1" 5 "claude"
    ⟨"claude", 1000, 40, "m", "i", "p", 0, 10, true, false, none⟩
    ⟨4, some 40, "Claude (Anthropic)"⟩ ⟨0, 0, 0⟩ rfl rfl rfl).2.1

/-- Counterexample for C8: calling `recordUsage` twice with `tokensUsed =
5` leaves the session at `tokensUsed = 5`, not the accumulated 10 the
claim asserts. -/
theorem C8_recordUsage_counterexample :
    alookup (recordUsage (recordUsage
      ⟨[("claude", ⟨4, some 40, "Claude (Anthropic)"⟩)],
       [("h1", ⟨"claude", 1000, 40, "m", "i", "p", 0, 10, true, false, none⟩)],
       ⟨0, [("claude", ⟨0, 0, 0⟩)]⟩⟩ "h1" 5 "claude").1 "h1" 5 "claude").1.sessions "h1" =
      some ⟨"claude", 1000, 40, "m", "i", "p", 0, 10, true, true, some 5⟩ ∧
    some (⟨"claude", 1000, 40, "m", "i", "p", 0, 10, true, true, some 5⟩ : Session) ≠
      some (⟨"claude", 1000, 40, "m", "i", "p", 0, 10, true, true, some (5 + 5)⟩ : Session) :=
  ⟨recordUsage_twice_sessions
    ⟨[("claude", ⟨4, some 40, "Claude (Anthropic)"⟩)],
     [("h1", ⟨"claude", 1000, 40, "m", "i", "p", 0, 10, true, false, none⟩)],
     ⟨0, [("claude", ⟨0, 0, 0⟩)]⟩⟩ "h1" 5 "claude"
    ⟨"claude", 1000, 40, "m", "i", "p", 0, 10, true, false, none⟩
    ⟨4, some 40, "Claude (Anthropic)"⟩ ⟨0, 0, 0⟩ rfl rfl rfl, by decide⟩

/-! ## C9 helper lemmas -/

theorem ceil_div_four (n : Nat) : ⌈(n : ℚ) / 4⌉ = (((n + 3) / 4 : Nat) : ℤ) := by
  have hq1 : (4 : ℚ) * (((n + 3) / 4 : Nat) : ℚ) ≤ (n : ℚ) + 3 := by
    exact_mod_cast (by omega : 4 * ((n + 3) / 4) ≤ n + 3)
  have hq2 : (n : ℚ) ≤ 4 * (((n + 3) / 4 : Nat) : ℚ) := by
    exact_mod_cast (by omega : n ≤ 4 * ((n + 3) / 4))
  rw [Int.ceil_eq_iff]
  simp only [Int.cast_natCast]
  refine ⟨by linarith, by linarith⟩

theorem utf8_eq_utf16_of_ascii : ∀ l : List Char, (∀ c ∈ l, c.toNat < 128) →
    (l.map (fun c => if c.toNat < 128 then 1 else if c.toNat < 2048 then 2
      else if c.toNat < 65536 then 3 else 4)).sum =
    (l.map (fun c => if c.toNat < 65536 then (1 : Nat) else 2)).sum := by
  intro l
  induction l with
  | nil => intro _; rfl
  | cons c rest ih =>
    intro h
    have hc := h c (List.mem_cons_self _ _)
    simp only [List.map_cons, List.sum_cons,
      ih (fun x hx => h x (List.mem_cons_of_mem _ hx))]
    rw [if_pos hc, if_pos (by omega : c.toNat < 65536)]

/-! ## C9 -/

/-- Claim C9 (corrected): both token-count fallbacks compute
`Math.ceil(text.length / 4)` where `text.length` is the JS string length —
the number of UTF-16 code units — not the UTF-8 byte count the claim
names; the two agree exactly on ASCII text. -/
theorem C9_countTokens_fallback_amended (text : String) (providers : List String)
    (provider : String) :
    countTokensBase text = (((utf16Length text + 3) / 4 : Nat) : ℤ) ∧
    routerCountTokens providers provider text = (((utf16Length text + 3) / 4 : Nat) : ℤ) ∧
    ((∀ c ∈ text.data, c.toNat < 128) →
      countTokensBase text = (((utf8Length text + 3) / 4 : Nat) : ℤ)) := by
  have hbase : countTokensBase text = (((utf16Length text + 3) / 4 : Nat) : ℤ) :=
    ceil_div_four (utf16Length text)
  refine ⟨hbase, ?_, ?_⟩
  · unfold routerCountTokens
    by_cases h : provider ∈ providers
    · rw [if_pos h]; exact hbase
    · rw [if_neg h]; exact ceil_div_four (utf16Length text)
  · intro hascii
    rw [hbase]
    have h816 : utf8Length text = utf16Length text := utf8_eq_utf16_of_ascii text.data hascii
    rw [h816]

/-- Witness for C9: on the ASCII string `hello` the fallback equals the
UTF-8 based ceiling the specification states. -/
theorem C9_countTokens_fallback_amended_witness :
    countTokensBase "hello" = (((utf8Length "hello" + 3) / 4 : Nat) : ℤ) :=
  (C9_countTokens_fallback_amended "hello" ["oobabooga"] "nope").2.2 (by decide)

/-- Counterexample for C9: on `éééé` (four two-byte characters) the code
returns `ceil(4/4) = 1`, while `ceil(utf8Length/4) = ceil(8/4) = 2`. -/
theorem C9_countTokens_fallback_counterexample :
    countTokensBase "éééé" = 1 ∧ (((utf8Length "éééé" + 3) / 4 : Nat) : ℤ) = 2 ∧
    (1 : ℤ) ≠ 2 := by
  have h16 : utf16Length "éééé" = 4 := by decide
  have h8 : utf8Length "éééé" = 8 := by decide
  refine ⟨?_, by rw [h8]; norm_num, by decide⟩
  unfold countTokensBase
  rw [h16, ceil_div_four 4]
  norm_num

/-! ## Token string lemmas (for C7) -/

theorem strStartsWith_append (x : String) : strStartsWithTok ("cashuA" ++ x) "cashuA" = true := by
  show (("cashuA" ++ x).data.take "cashuA".data.length == "cashuA".data) = true
  rw [String.data_append, List.take_left]
  exact beq_self_eq_true _

theorem strDrop_append_six (x : String) : strDrop ("cashuA" ++ x) 6 = x := by
  simp [strDrop, String.data_append]

theorem proofOfJson_proofJson (p : Proof) : proofOfJson (proofJson p) = some p := rfl

/-! ## C7 -/

/-- Claim C7 (confirmed): `serializeToken` emits exactly `cashuA` followed
by base64 of the printed JSON envelope; given the collaborator round trip
(base64 decode of encode is the identity and `JSON.parse` recovers the
printed tree), `deserializeToken` of `serializeToken` returns the
configured mint URL and the same proof list; and `deserializeToken`
rejects any string without the `cashuA` prefix and any decoded structure
whose `token` or `token[0]` is missing (or falsy). `b64encode`,
`b64decode` and `jsonParse` abstract the Node `Buffer`/`JSON`
collaborators. -/
theorem C7_token_roundtrip (b64encode b64decode : String → String)
    (jsonParse : String → Option Json) (mintUrl : String) (ps : List Proof) :
    serializeToken b64encode mintUrl ps =
      "cashuA" ++ b64encode (stringifyJson (tokenJson mintUrl ps)) ∧
    (jsonParse (b64decode (b64encode (stringifyJson (tokenJson mintUrl ps)))) =
        some (tokenJson mintUrl ps) →
      deserializeToken b64decode jsonParse (serializeToken b64encode mintUrl ps) =
        .ok (some (.str mintUrl), some (.arr (ps.map proofJson)))) ∧
    proofsOfJson (.arr (ps.map proofJson)) = some ps ∧
    (∀ s, strStartsWithTok s "cashuA" = false →
      deserializeToken b64decode jsonParse s = .error "Invalid token format") ∧
    (∀ s parsed, strStartsWithTok s "cashuA" = true →
      jsonParse (b64decode (strDrop s 6)) = some parsed →
      jtruthy (jget parsed "token") = false →
      deserializeToken b64decode jsonParse s = .error "Invalid token structure") ∧
    (∀ s parsed, strStartsWithTok s "cashuA" = true →
      jsonParse (b64decode (strDrop s 6)) = some parsed →
      jtruthy ((jget parsed "token").bind (fun t => jindex t 0)) = false →
      deserializeToken b64decode jsonParse s = .error "Invalid token structure") := by
  refine ⟨rfl, ?_, ?_, ?_, ?_, ?_⟩
  · intro hp
    show deserializeToken b64decode jsonParse
      ("cashuA" ++ b64encode (stringifyJson (tokenJson mintUrl ps))) = _
    unfold deserializeToken
    rw [if_neg (fun hn => hn (strStartsWith_append _)), strDrop_append_six, hp]
    rfl
  · show (ps.map proofJson).mapM proofOfJson = some ps
    induction ps with
    | nil => rfl
    | cons p rest ih =>
      simp only [List.map_cons, List.mapM_cons, proofOfJson_proofJson, ih]
      rfl
  · intro s hfalse
    unfold deserializeToken
    rw [if_pos (fun htrue => Bool.false_ne_true (hfalse ▸ htrue))]
  · intro s parsed hstart hp htr
    unfold deserializeToken
    rw [if_neg (fun hn => hn hstart), hp]
    dsimp only
    rw [if_pos (fun hc => Bool.false_ne_true (htr ▸ hc.1))]
  · intro s parsed hstart hp htr
    unfold deserializeToken
    rw [if_neg (fun hn => hn hstart), hp]
    dsimp only
    rw [if_pos (fun hc => Bool.false_ne_true (htr ▸ hc.2))]

/-- Witness for C7: with identity base64 collaborators and a parser that
recovers the emitted envelope, the round trip on one concrete proof
returns the mint URL and the same proof. -/
theorem C7_token_roundtrip_witness :
    deserializeToken id
      (fun s => if s = stringifyJson (tokenJson "http://localhost:3338" [⟨1, "ks", "s", "C"⟩])
        then some (tokenJson "http://localhost:3338" [⟨1, "ks", "s", "C"⟩]) else none)
      (serializeToken id "http://localhost:3338" [⟨1, "ks", "s", "C"⟩]) =
      .ok (some (.str "http://localhost:3338"),
        some (.arr [proofJson ⟨1, "ks", "s", "C"⟩])) :=
  (C7_token_roundtrip id id
    (fun s => if s = stringifyJson (tokenJson "http://localhost:3338" [⟨1, "ks", "s", "C"⟩])
      then some (tokenJson "http://localhost:3338" [⟨1, "ks", "s", "C"⟩]) else none)
    "http://localhost:3338" [⟨1, "ks", "s", "C"⟩]).2.1 (by simp)

end LNCA
